import Mathlib

/-!
# Verification of TheCROWler crawl-orchestration core

A shallow embedding, in Lean 4, of the parts of the TheCROWler repository
that the checked claims are about:

* the stored procedure `update_sources` of
  `pkg/database/postgresql-setup-v1.2.pgsql` (source claiming), together
  with the `Sources` `last_updated_at` trigger;
* `updateSourceState`, `indexPage`, `insertOrUpdateSearchIndex`,
  `insertMetaTags`, `insertKeywords`, `insertKeywordWithRetries`,
  `strLeft`, `extractLinks`, `IsValidURL`, `isExternalLink`,
  `getDomainParts` and `processJob` of the crawler package;
* `executeRule`, `checkActionPreConditions`, `checkActionConditions` of
  `pkg/crawler/action_rules.go`;
* `executeScrapingRulesInRuleset`, `executeScrapingRulesInRuleGroup`,
  `checkScrapingPreConditions`, `checkScrapingConditions` and
  `shouldExecuteScrapingRule` of `pkg/crawler/scraping_rules.go`.

Go machine integers are modelled as `Int`/`Nat` (no overflow is relevant
to any claim), Go strings as Lean `String` (rune slices as `List Char`),
SQL `NULL`-able columns as `Option`, timestamps as `Int` seconds, and
fallible database/driver steps as explicit outcome oracles so that the
control flow of the Go code can be reproduced and evaluated.
-/

namespace TheCrowler

/-- Models Go `strings.Contains s pat` over rune lists (auxiliary scan). -/
def strContainsAux (needle : List Char) : List Char → Bool
  | [] => needle.isEmpty
  | c :: rest => List.isPrefixOf needle (c :: rest) || strContainsAux needle rest

/-- Models Go `strings.Contains` (byte-substring search; on the rune level
this coincides for the well-formed strings handled here). -/
def strContains (s pat : String) : Bool :=
  strContainsAux pat.toList s.toList

/-- ASCII whitespace, as trimmed by Go `strings.TrimSpace` on the inputs
handled here. -/
def isSpaceChar (c : Char) : Bool :=
  c == ' ' || c == '\t' || c == '\n' || c == '\r'

/-- Models Go `strings.TrimSpace`. -/
def trimSpace (s : String) : String :=
  String.mk (((s.toList.dropWhile isSpaceChar).reverse.dropWhile isSpaceChar).reverse)

/-- Models Go `strings.ToLower` (ASCII). -/
def toLowerStr (s : String) : String :=
  String.mk (s.toList.map Char.toLower)

/-- Models Go `strings.HasPrefix`. -/
def strHasPrefix (s pre : String) : Bool :=
  List.isPrefixOf pre.toList s.toList

/-! ## C10: `strLeft` and `insertOrUpdateSearchIndex` (crawler.go) -/

/-- Embedding of `strLeft` (crawler.go):
`runes := []rune(s); if x < 0 || x > len(runes) { return s }; return string(runes[:x])`. -/
def strLeft (s : String) (x : Int) : String :=
  let runes := s.toList
  if x < 0 ∨ x > (runes.length : Int) then s
  else String.mk (runes.take x.toNat)

/-- The page information fields of `PageInfo` used by
`insertOrUpdateSearchIndex`. -/
structure PageInfo where
  title : String
  summary : String
  bodyText : String
  detectedLang : String
  detectedType : String
  sourceID : Nat
deriving Repr, DecidableEq

/-- The `SearchIndex` columns written by `insertOrUpdateSearchIndex`. -/
structure SearchIndexRow where
  page_url : String
  title : String
  summary : String
  content : String
  detected_lang : String
  detected_type : String
deriving Repr, DecidableEq

/-- Embedding of the row produced by the `INSERT ... ON CONFLICT` of
`insertOrUpdateSearchIndex` (crawler.go): both `detected_lang` and
`detected_type` are passed through `strLeft(·, 8)`. -/
def insertOrUpdateSearchIndexRow (url : String) (p : PageInfo) : SearchIndexRow :=
  { page_url := url
    title := p.title
    summary := p.summary
    content := p.bodyText
    detected_lang := strLeft p.detectedLang 8
    detected_type := strLeft p.detectedType 8 }

/-! ## Sources table rows, `update_sources` (C1) and `updateSourceState` (C8) -/

/-- One row of the `Sources` table (postgresql-setup-v1.2.pgsql).
Timestamps are seconds since an arbitrary epoch; `NULL`-able columns are
`Option`. -/
structure SourceRow where
  source_id : Nat
  url : String
  status : Option String
  last_updated_at : Option Int
  last_crawled_at : Option Int
  last_error : Option String
  last_error_at : Option Int
  restricted : Int
  disabled : Bool
  flags : Int
  config : Option String
deriving Repr, DecidableEq

/-- SQL `t < bound` on a `NULL`-able timestamp: `NULL` compares to
nothing (three-valued logic collapses to not-selected). -/
def tsLT (t : Option Int) (bound : Int) : Bool :=
  match t with
  | none => false
  | some v => v < bound

/-- Seconds in three days (`INTERVAL '3 days'`). -/
def threeDays : Int := 3 * 86400

/-- Seconds in fifteen minutes (`INTERVAL '15 minutes'`). -/
def fifteenMinutes : Int := 15 * 60

/-- Seconds in one week (`INTERVAL '1 week'`). -/
def oneWeek : Int := 7 * 86400

/-- The `WHERE` predicate of the `SelectedSources` CTE of `update_sources`
(postgresql-setup-v1.2.pgsql, lines 440-449):
`disabled = FALSE AND (last_updated_at IS NULL OR last_updated_at < NOW()-'3 days'
OR (status='error' AND last_updated_at < NOW()-'15 minutes')
OR (status='completed' AND last_updated_at < NOW()-'1 week')
OR status='pending' OR status='new' OR status IS NULL)`. -/
def eligible (now : Int) (s : SourceRow) : Bool :=
  !s.disabled &&
    (s.last_updated_at.isNone || tsLT s.last_updated_at (now - threeDays)
      || (s.status == some "error" && tsLT s.last_updated_at (now - fifteenMinutes))
      || (s.status == some "completed" && tsLT s.last_updated_at (now - oneWeek))
      || s.status == some "pending" || s.status == some "new" || s.status.isNone)

/-- The columns returned by `update_sources`:
`(source_id, url, restricted, flags, config, last_updated_at)` (values as
of after the `UPDATE`, since `RETURNING` follows the `UPDATE`). -/
structure ClaimedRow where
  source_id : Nat
  url : String
  restricted : Int
  flags : Int
  config : Option String
  last_updated_at : Option Int
deriving Repr, DecidableEq

/-- Effect of the `UPDATE ... SET status = 'processing'` on one selected
row, including the `trg_update_sources_last_updated_before_update`
trigger, which sets `last_updated_at = CURRENT_TIMESTAMP` on every
`UPDATE` of `Sources`. -/
def flipToProcessing (now : Int) (s : SourceRow) : SourceRow :=
  { s with status := some "processing", last_updated_at := some now }

/-- Embedding of the stored procedure `update_sources(limit_val)`
(postgresql-setup-v1.2.pgsql, lines 435-459) as one atomic state
transformer on the `Sources` table: select up to `limit_val` rows
satisfying `eligible` (the CTE has no `ORDER BY`; the model determinizes
the Postgres row choice to table order, which the claims do not depend
on), flip each selected row to `'processing'` (trigger included), and
return the selected rows' columns post-update. Serialization of
concurrent callers is what `FOR UPDATE` provides; concurrency is
therefore modelled by sequential composition of this function. -/
def update_sources (limit_val : Nat) (now : Int) (tbl : List SourceRow) :
    List ClaimedRow × List SourceRow :=
  let selected := (tbl.filter (eligible now)).take limit_val
  let selectedIds := selected.map (fun s => s.source_id)
  let newTbl := tbl.map (fun s =>
    if selectedIds.contains s.source_id then flipToProcessing now s else s)
  let returned := selected.map (fun s =>
    let s2 := flipToProcessing now s
    { source_id := s2.source_id, url := s2.url, restricted := s2.restricted,
      flags := s2.flags, config := s2.config,
      last_updated_at := s2.last_updated_at : ClaimedRow })
  (returned, newTbl)

/-- Embedding of `updateSourceState` (crawler.go, lines 916-940) as a
per-row transformer (the SQL statement updates the row whose `url`
matches; the `Sources` `BEFORE UPDATE` trigger additionally sets
`last_updated_at = now`). `crawlError = none` is the success branch:
`SET last_crawled_at = NOW(), status = 'completed'`; `some msg` is the
error branch: `SET last_crawled_at = NOW(), status = 'error',
last_error = msg, last_error_at = NOW()`. -/
def updateSourceStateRow (now : Int) (crawlError : Option String) (row : SourceRow) :
    SourceRow :=
  match crawlError with
  | some msg =>
      { row with last_crawled_at := some now, status := some "error",
                 last_error := some msg, last_error_at := some now,
                 last_updated_at := some now }
  | none =>
      { row with last_crawled_at := some now, status := some "completed",
                 last_updated_at := some now }

/-- Table-level embedding of `updateSourceState`: the `WHERE url = $n`
clause applies the row transformer to the rows with the given URL. -/
def updateSourceState (now : Int) (sourceURL : String) (crawlError : Option String)
    (tbl : List SourceRow) : List SourceRow :=
  tbl.map (fun r => if r.url == sourceURL then updateSourceStateRow now crawlError r else r)

/-! ## C2: `indexPage`, `insertKeywordWithRetries` (crawler.go) -/

/-- Outcome of one execution of the keyword upsert statement
`INSERT INTO Keywords ... ON CONFLICT ... RETURNING keyword_id` on the
`db` connection (crawler.go, `insertKeywordWithRetries`): success with a
keyword id, a `deadlock detected` error, or any other error. -/
inductive KwOutcome where
  | ok (id : Nat)
  | deadlock
  | failure
deriving Repr, DecidableEq

/-- `maxRetries` constant of `insertKeywordWithRetries`. -/
def maxRetries : Nat := 3

/-- Result of `insertKeywordWithRetries`: the returned keyword id (or
`none` for an error), the number of statement executions performed, and
the sleeps (milliseconds) in order. -/
structure KwRetryResult where
  keywordID : Option Nat
  attempts : Nat
  sleepsMs : List Nat
deriving Repr, DecidableEq

/-- The `for i := 0; i < maxRetries; i++` loop body of
`insertKeywordWithRetries` (crawler.go, lines 1111-1127), starting at
attempt index `i` with `fuel` iterations remaining: on success return the
id; on a non-deadlock error return the error; on deadlock, return the
error when `i == maxRetries-1`, otherwise sleep `i*100` milliseconds and
retry. -/
def insertKeywordLoop (outcome : Nat → KwOutcome) : Nat → Nat → KwRetryResult
  | _, 0 => { keywordID := none, attempts := 0, sleepsMs := [] }
  | i, fuel + 1 =>
    match outcome i with
    | .ok id => { keywordID := some id, attempts := 1, sleepsMs := [] }
    | .failure => { keywordID := none, attempts := 1, sleepsMs := [] }
    | .deadlock =>
      if i == maxRetries - 1 then { keywordID := none, attempts := 1, sleepsMs := [] }
      else
        let rest := insertKeywordLoop outcome (i + 1) fuel
        { keywordID := rest.keywordID, attempts := rest.attempts + 1,
          sleepsMs := i * 100 :: rest.sleepsMs }

/-- Embedding of `insertKeywordWithRetries` (crawler.go, lines 1100-1129);
`outcome i` is the result the database gives to the `i`-th execution of
the keyword upsert. The statement runs on the `db` handler, outside the
`indexPage` transaction. -/
def insertKeywordWithRetries (outcome : Nat → KwOutcome) : KwRetryResult :=
  insertKeywordLoop outcome 0 maxRetries

/-- Per-call oracle for one keyword of a page: the keyword text, the
outcome of each upsert attempt on the `db` connection, and whether the
`INSERT INTO KeywordIndex` posting on the transaction succeeds. -/
structure KwSpec where
  name : String
  upsert : Nat → KwOutcome
  postingOk : Bool

/-- Failure oracle for one `indexPage` call: the outcome of the
`SearchIndex` upsert (`none` = error, `some id` = returned index id),
of the `SourceSearchIndex` link insert, of each meta-tag insert, and of
each keyword (dictionary upsert attempts and posting insert). -/
structure IndexOracle where
  upsertResult : Option Nat
  linkOk : Bool
  metas : List Bool
  keywords : List KwSpec

/-- Database events emitted while `indexPage` runs. `tx`-prefixed events
are statements executed on the transaction: they persist only if the
transaction commits. `dbKeywordUpsert` is a successful keyword-dictionary
write executed directly on the `db` connection (autocommit), which
persists regardless of the transaction. -/
inductive DBEvent where
  | txUpsertPage (indexID : Nat)
  | txLink
  | txMeta (i : Nat)
  | txPosting (keywordID : Nat)
  | dbKeywordUpsert (kw : String)
  | sleepMs (n : Nat)
  | txCommit
  | txRollback
deriving Repr, DecidableEq

/-- Meta-tag insertion loop of `insertMetaTags` (crawler.go, lines
1043-1052): inserts in order, stopping at the first failed `Exec`. -/
def insertMetaTagsLoop : List Bool → Nat → List DBEvent × Bool
  | [], _ => ([], true)
  | ok :: rest, i =>
    if ok then
      let (evs, res) := insertMetaTagsLoop rest (i + 1)
      (DBEvent.txMeta i :: evs, res)
    else ([], false)

/-- Events emitted by one `insertKeywordWithRetries` call: a
`dbKeywordUpsert` when an attempt succeeds, and the sleeps between
deadlocked attempts. -/
def kwUpsertEvents (kw : String) (r : KwRetryResult) : List DBEvent :=
  r.sleepsMs.map DBEvent.sleepMs ++
    (match r.keywordID with
     | some _ => [DBEvent.dbKeywordUpsert kw]
     | none => [])

/-- Keyword loop of `insertKeywords` (crawler.go, lines 1059-1072): for
each keyword, upsert the dictionary entry via `insertKeywordWithRetries`
on `db`, then insert the `KeywordIndex` posting on the transaction;
either failure aborts the loop with an error. -/
def insertKeywordsLoop : List KwSpec → List DBEvent × Bool
  | [] => ([], true)
  | k :: rest =>
    let r := insertKeywordWithRetries k.upsert
    match r.keywordID with
    | none => (kwUpsertEvents k.name r, false)
    | some kid =>
      if k.postingOk then
        let (evs, res) := insertKeywordsLoop rest
        (kwUpsertEvents k.name r ++ DBEvent.txPosting kid :: evs, res)
      else (kwUpsertEvents k.name r, false)

/-- The outcome of one `indexPage` call: the statements it issued, in
order, and whether the transaction reached `tx.Commit()` (`false` means
the `rollbackTransaction(tx)` path ran). -/
structure IndexTrace where
  events : List DBEvent
  committed : Bool
deriving Repr, DecidableEq

/-- Embedding of `indexPage` (crawler.go, lines 949-999) as the event
trace of one call (the `indexPageMutex` serializes calls process-wide, so
one call is a sequential trace): begin a transaction; upsert into
`SearchIndex` and link `SourceSearchIndex` (`insertOrUpdateSearchIndex`);
insert meta tags; insert keywords; commit; any step error rolls the
transaction back and returns. -/
def indexPage (o : IndexOracle) : IndexTrace :=
  match o.upsertResult with
  | none => { events := [], committed := false }
  | some indexID =>
    if !o.linkOk then { events := [DBEvent.txUpsertPage indexID], committed := false }
    else if !(insertMetaTagsLoop o.metas 0).2 then
      { events := DBEvent.txUpsertPage indexID :: DBEvent.txLink ::
          (insertMetaTagsLoop o.metas 0).1,
        committed := false }
    else
      { events := DBEvent.txUpsertPage indexID :: DBEvent.txLink ::
          (insertMetaTagsLoop o.metas 0).1 ++ (insertKeywordsLoop o.keywords).1,
        committed := (insertKeywordsLoop o.keywords).2 }

/-- Whether every step of the oracle succeeds (upsert, link, all metas,
every keyword upsert and posting). -/
def indexAllOk (o : IndexOracle) : Bool :=
  o.upsertResult.isSome && o.linkOk && o.metas.all id &&
    o.keywords.all (fun k => (insertKeywordWithRetries k.upsert).keywordID.isSome && k.postingOk)

/-- Whether an event is a write on the transaction. -/
def isTxWrite (e : DBEvent) : Bool :=
  match e with
  | .txUpsertPage _ => true
  | .txLink => true
  | .txMeta _ => true
  | .txPosting _ => true
  | _ => false

/-- Whether an event is a keyword-dictionary write on the `db`
connection. -/
def isDbKeywordWrite (e : DBEvent) : Bool :=
  match e with
  | .dbKeywordUpsert _ => true
  | _ => false

/-- The writes of a trace that persist in the database after the call:
writes on the transaction persist only when it committed; the
keyword-dictionary writes ran on `db` in autocommit mode and persist
unconditionally. -/
def persistedWrites (t : IndexTrace) : List DBEvent :=
  (if t.committed then t.events.filter isTxWrite else []) ++
    t.events.filter isDbKeywordWrite

/-! ## C6: `executeRule` (action_rules.go) -/

/-- The `ErrorHandling` fields of a rule consumed by `executeRule`. -/
structure ErrorHandling where
  retryCount : Int
  retryDelay : Int
  ignore : Bool
deriving Repr, DecidableEq

/-- Result of `executeRule`: how many times `executeActionRule` ran, the
sleeps (seconds) in order, and whether the last attempt succeeded. -/
structure RuleTrace where
  attempts : Nat
  sleepsSec : List Int
  succeeded : Bool
deriving Repr, DecidableEq

/-- The `for i := 0; i < RetryCount; i++` retry loop of `executeRule`
(action_rules.go, lines 87-95): sleep `RetryDelay` seconds when positive,
re-execute, and stop at the first success. `outcome k` is the success of
the `k`-th execution of `executeActionRule` (attempt 0 is the initial
one). -/
def executeRuleRetryLoop (eh : ErrorHandling) (outcome : Nat → Bool) :
    Nat → Nat → RuleTrace
  | _, 0 => { attempts := 0, sleepsSec := [], succeeded := false }
  | k, fuel + 1 =>
    let sleeps := if eh.retryDelay > 0 then [eh.retryDelay] else []
    if outcome k then { attempts := 1, sleepsSec := sleeps, succeeded := true }
    else
      let rest := executeRuleRetryLoop eh outcome (k + 1) fuel
      if rest.attempts == 0 then { attempts := 1, sleepsSec := sleeps, succeeded := false }
      else
        { attempts := rest.attempts + 1, sleepsSec := sleeps ++ rest.sleepsSec,
          succeeded := rest.succeeded }

/-- Embedding of `executeRule` (action_rules.go, lines 80-99): one initial
`executeActionRule`; on error, when `ignore` is false and `RetryCount > 0`,
run the retry loop for at most `RetryCount` iterations. The function
returns to its caller in every case (its Go original returns nothing), so
a rule failure never propagates. -/
def executeRule (eh : ErrorHandling) (outcome : Nat → Bool) : RuleTrace :=
  if outcome 0 then { attempts := 1, sleepsSec := [], succeeded := true }
  else if eh.ignore then { attempts := 1, sleepsSec := [], succeeded := false }
  else if eh.retryCount > 0 then
    let rest := executeRuleRetryLoop eh outcome 1 eh.retryCount.toNat
    { attempts := rest.attempts + 1, sleepsSec := rest.sleepsSec,
      succeeded := rest.succeeded }
  else { attempts := 1, sleepsSec := [], succeeded := false }

/-- Embedding of `executeActionRules` (action_rules.go, lines 71-78): the
loop executes `executeRule` for every rule of the list and counts it in
`TotalActions`, regardless of failures — the enclosing crawl session
continues past every rule failure. -/
def executeActionRules (rs : List (ErrorHandling × (Nat → Bool))) : List RuleTrace :=
  rs.map (fun r => executeRule r.1 r.2)

/-! ## C7: ruleset / rule-group execution (scraping_rules.go) -/

/-- Result of one `executeScrapingRule` call: the scraped JSON fragment
and its error (`none` = success). -/
structure ScrapeOutcome where
  data : String
  err : Option String
deriving Repr, DecidableEq

/-- Embedding of `addScrapedDataToDocument` (scraping_rules.go, lines
69-75). -/
def addScrapedDataToDocument (doc newData : String) : String :=
  if doc == "" then newData else doc ++ "," ++ newData

/-- Whether an error message contains the token `"Critical"`
(`strings.Contains(err.Error(), "Critical")`). -/
def isCriticalErr (e : Option String) : Bool :=
  match e with
  | none => false
  | some msg => strContains msg "Critical"

/-- Loop of `executeScrapingRulesInRuleset` (scraping_rules.go, lines
118-129), carrying the accumulated document and the (0-based) index of
the next rule; returns the executed rule indices, the document, and the
returned error. An error containing `"Critical"` returns immediately with
an empty document; other errors are logged and the loop continues. -/
def rulesetLoop : List ScrapeOutcome → Nat → String → List Nat × String × Option String
  | [], _, doc => ([], doc, none)
  | r :: rest, i, doc =>
    if isCriticalErr r.err then ([i], "", r.err)
    else
      let (idxs, doc2, e) := rulesetLoop rest (i + 1) (addScrapedDataToDocument doc r.data)
      (i :: idxs, doc2, e)

/-- Embedding of `executeScrapingRulesInRuleset` (scraping_rules.go,
lines 112-135); `rs` gives each enabled scraping rule's outcome in order.
Returns (executed rule indices, scraped document, error). -/
def executeScrapingRulesInRuleset (rs : List ScrapeOutcome) :
    List Nat × String × Option String :=
  rulesetLoop rs 0 ""

/-- Loop of `executeScrapingRulesInRuleGroup` (scraping_rules.go, lines
144-149): every rule is executed and its data appended; `err` is
overwritten on each iteration, so only the last rule's error survives,
and no error — `"Critical"` or not — stops the loop. -/
def ruleGroupLoop : List ScrapeOutcome → Nat → String → Option String →
    List Nat × String × Option String
  | [], _, doc, e => ([], doc, e)
  | r :: rest, i, doc, _ =>
    let (idxs, doc2, e2) := ruleGroupLoop rest (i + 1) (addScrapedDataToDocument doc r.data) r.err
    (i :: idxs, doc2, e2)

/-- Embedding of `executeScrapingRulesInRuleGroup` (scraping_rules.go,
lines 137-155). -/
def executeScrapingRulesInRuleGroup (rs : List ScrapeOutcome) :
    List Nat × String × Option String :=
  ruleGroupLoop rs 0 "" none

/-! ## C5 / C9: rule conditions (action_rules.go, scraping_rules.go) -/

/-- The browser-observable state the condition checks consult: which CSS
selectors the page has at least one element for, and the value the script
`return document.documentElement.lang` evaluates to (`none` models a
script/driver error, in which case the Go `lang` variable stays the nil
interface and equals no condition string). -/
structure BrowserPage where
  presentSelectors : List String
  lang : Option String
deriving Repr, DecidableEq

/-- The JS-plugin registry (`ctx.re.JSPlugins`), mapping a plugin name to
the value its execution returns (`none` models an `ExecuteScript` error). -/
structure PluginRegistry where
  plugins : List (String × Option String)
deriving Repr, DecidableEq

/-- `GetPlugin` existence lookup. -/
def PluginRegistry.getPlugin (reg : PluginRegistry) (name : String) :
    Option (Option String) :=
  (reg.plugins.find? (fun p => p.1 == name)).map (·.2)

/-- The `Conditions` map of a rule, as an association list (the Go code
probes the fixed keys `"element"`, `"language"`, `"plugin_call"` and
`"selector"` in that textual order, so map iteration order is
irrelevant). -/
def condLookup (conds : List (String × String)) (k : String) : Option String :=
  (conds.find? (fun p => p.1 == k)).map (·.2)

/-- Embedding of `checkActionConditions` (action_rules.go, lines
620-669): starts with `canProceed := true`; an absent element sets it
false; a language mismatch (or script error) sets it false; a
`plugin_call` key looks the plugin up under the `"selector"` key and then
*overwrites* `canProceed` with whether the plugin returned the literal
string `"true"` (lower-cased, trimmed). A missing `"selector"` key makes
the Go type assertion `conditions["selector"].(string)` panic; the model
returns `false` there (the branch is unreachable in the checked claims). -/
def checkActionConditions (reg : PluginRegistry) (page : BrowserPage)
    (conds : List (String × String)) : Bool :=
  if conds.length > 0 then
    let afterElement :=
      match condLookup conds "element" with
      | some sel => page.presentSelectors.contains sel
      | none => true
    let afterLanguage :=
      match condLookup conds "language" with
      | some l => if page.lang != some l then false else afterElement
      | none => afterElement
    match condLookup conds "plugin_call" with
    | none => afterLanguage
    | some _ =>
      match condLookup conds "selector" with
      | none => false
      | some pname =>
        match reg.getPlugin pname with
        | none => false
        | some none => false
        | some (some rval) => toLowerStr (trimSpace rval) == "true"
  else true

/-- Embedding of `checkScrapingConditions` (scraping_rules.go, lines
454-480): identical to the action variant but with no `plugin_call`
branch. -/
def checkScrapingConditions (page : BrowserPage)
    (conds : List (String × String)) : Bool :=
  if conds.length > 0 then
    let afterElement :=
      match condLookup conds "element" with
      | some sel => page.presentSelectors.contains sel
      | none => true
    match condLookup conds "language" with
    | some l => if page.lang != some l then false else afterElement
    | none => afterElement
  else true

/-- Embedding of `shouldExecuteScrapingRule` (scraping_rules.go, lines
262-264): `len(r.Conditions) == 0 || checkScrapingConditions(...)`. -/
def shouldExecuteScrapingRule (page : BrowserPage)
    (conds : List (String × String)) : Bool :=
  conds.length == 0 || checkScrapingConditions page conds

/-- The condition gate of `executeActionRule` (action_rules.go, line 114):
`(len(r.Conditions) == 0) || checkActionConditions(...)`; only when it
holds is the action dispatched. -/
def actionRuleApplies (reg : PluginRegistry) (page : BrowserPage)
    (conds : List (String × String)) : Bool :=
  conds.length == 0 || checkActionConditions reg page conds

/-- The `for _, pattern := range patterns` loop shared by
`checkScrapingPreConditions` and `checkActionPreConditions`: each
iteration overwrites `canProceed` with whether the URL contains the
current pattern. -/
def preConditionsLoop (url : String) (canProceed : Bool) : List String → Bool
  | [] => canProceed
  | pattern :: rest =>
    preConditionsLoop url (if strContains url pattern then true else false) rest

/-- Embedding of `checkScrapingPreConditions` (scraping_rules.go, lines
436-449): `canProceed` starts true and is overwritten inside the loop by
whether the current pattern is contained in the URL (the mutable
assignment of the Go loop is `preConditionsLoop`), so the final value is
decided by the last pattern alone. -/
def checkScrapingPreConditions (patterns : List String) (url : String) : Bool :=
  if patterns.length > 0 then preConditionsLoop url true patterns
  else true

/-- Embedding of `checkActionPreConditions` (action_rules.go, lines
602-615); textually the same loop as the scraping variant. -/
def checkActionPreConditions (patterns : List String) (url : String) : Bool :=
  if patterns.length > 0 then preConditionsLoop url true patterns
  else true

/-! ## C3: link extraction (crawler.go) -/

/-- Splits a character stream at the first `>`: the characters before it
(the inside of a tag) and the characters after it. Models how an HTML
tokenizer delimits a tag. -/
def splitTag : List Char → List Char × List Char
  | [] => ([], [])
  | c :: rest =>
    if c = '>' then ([], rest)
    else ((splitTag rest).1.cons c, (splitTag rest).2)

/-- The characters of an attribute value up to the closing double
quote. -/
def takeUntilQuote : List Char → List Char
  | [] => []
  | '"' :: _ => []
  | c :: rest => c :: takeUntilQuote rest

/-- Finds the value of the first `href="..."` attribute inside a tag
body. Models how goquery reports the `href` attribute of an `<a>`
element for documents whose attributes are double-quoted. -/
def hrefInTag : List Char → Option (List Char)
  | 'h' :: 'r' :: 'e' :: 'f' :: '=' :: '"' :: rest => some (takeUntilQuote rest)
  | _ :: rest => hrefInTag rest
  | [] => none

/-- Fuel-driven scanner behind `findAnchorHrefs` (the fuel, at least the
stream length, only forces termination: every step strictly shortens the
stream, `splitTag` never lengthens it). -/
def findAnchorHrefsFuel : Nat → List Char → List String
  | 0, _ => []
  | _ + 1, [] => []
  | fuel + 1, '<' :: 'a' :: ' ' :: rest =>
    (match hrefInTag (splitTag rest).1 with
     | some h => [String.mk h]
     | none => []) ++ findAnchorHrefsFuel fuel (splitTag rest).2
  | fuel + 1, _ :: rest => findAnchorHrefsFuel fuel rest

/-- The `href` values of the `<a ...>` elements of an HTML character
stream, in document order. Models the goquery traversal
`doc.Find("a").Each(... item.Attr("href") ...)` used by `extractLinks`,
for plain documents with double-quoted attributes. -/
def findAnchorHrefs (l : List Char) : List String :=
  findAnchorHrefsFuel l.length l

/-- Fuel-driven scanner behind `stripTags`. -/
def stripTagsFuel : Nat → List Char → List Char
  | 0, _ => []
  | _ + 1, [] => []
  | fuel + 1, '<' :: rest => stripTagsFuel fuel (splitTag rest).2
  | fuel + 1, c :: rest => c :: stripTagsFuel fuel rest

/-- The visible text of an HTML character stream: everything outside
tags. Models `doc.Find("body").Text()` of `extractPageInfo` for
documents whose text nodes all sit inside `<body>`. -/
def stripTags (l : List Char) : List Char :=
  stripTagsFuel l.length l

/-- Models the success predicate of Go `net/url.ParseRequestURI` on the
URL shapes handled by the crawler: the string must be non-empty, contain
no space and no ASCII control character, and when it carries a scheme
(`"://"`), the scheme must start with a letter and use only letters,
digits, `+`, `-`, `.`. -/
def parseRequestURIOk (u : String) : Bool :=
  let cs := u.toList
  u != "" &&
  cs.all (fun c => c != ' ' && c.toNat ≥ 32) &&
  (if strContains u "://" then
    let schemeCs := cs.takeWhile (fun c => c != ':')
    (match schemeCs with
     | [] => false
     | c :: rest => c.isAlpha &&
         rest.all (fun d => d.isAlpha || d.isDigit || d == '+' || d == '-' || d == '.'))
   else true)

/-- Embedding of `IsValidURL` (crawler.go, lines 1242-1251): prepend
`"http://"` when the string has no `"://"`, then require
`url.ParseRequestURI` to succeed. -/
def IsValidURL (u : String) : Bool :=
  let u2 := if !strContains u "://" then "http://" ++ u else u
  parseRequestURIOk u2

/-- Embedding of `extractLinks` (crawler.go, lines 1256-1272): every
`<a>` element's `href` value, trimmed, kept when non-empty and
`IsValidURL`. -/
def extractLinks (htmlContent : String) : List String :=
  ((findAnchorHrefs htmlContent.toList).map trimSpace).filter
    (fun link => link != "" && IsValidURL link)

/-- The `BodyText` field computed by `extractPageInfo` (crawler.go, line
1163): `doc.Find("body").Text()`, i.e. the visible text. -/
def pageBodyText (htmlContent : String) : String :=
  String.mk (stripTags htmlContent.toList)

/-- The links a worker appends to `processCtx.newLinks` for one crawled
page: `processJob` (crawler.go, lines 1361-1376) calls
`extractLinks(pageCache.BodyText)` — on the page's visible text, not on
its HTML. -/
def processJobNewLinks (htmlContent : String) : List String :=
  extractLinks (pageBodyText htmlContent)

/-- The links `CrawlWebsite` extracts from the seed page (crawler.go,
line 705): `extractLinks(htmlContent)` — on the page's HTML. -/
def crawlWebsiteInitialLinks (htmlContent : String) : List String :=
  extractLinks htmlContent

/-! ## C4: `isExternalLink` and `getDomainParts` (crawler.go) -/

/-- A parsed URL, reduced to the fields `isExternalLink` consults. -/
structure GoURL where
  scheme : String
  host : String
  path : String
deriving Repr, DecidableEq

/-- Splits a character stream at the first `"://"`. -/
def splitScheme : List Char → Option (List Char × List Char)
  | [] => none
  | ':' :: '/' :: '/' :: rest => some ([], rest)
  | c :: rest => (splitScheme rest).map (fun p => (c :: p.1, p.2))

/-- Models Go `net/url.Parse` on the URL shapes the crawler handles:
absolute URLs `scheme://host/path` (scheme lower-cased by the parser) and
scheme-less strings, which parse with empty scheme and host. Strings with
spaces or ASCII control characters fail to parse. -/
def parseURL (raw : String) : Option GoURL :=
  let cs := raw.toList
  if cs.any (fun c => c == ' ' || c.toNat < 32) then none
  else
    match splitScheme cs with
    | some (schemeCs, rest) =>
      (match schemeCs with
       | [] => none
       | c :: tail =>
         if c.isAlpha && tail.all (fun d => d.isAlpha || d.isDigit || d == '+' || d == '-' || d == '.') then
           let host := rest.takeWhile (fun d => d != '/')
           let path := rest.dropWhile (fun d => d != '/')
           some { scheme := toLowerStr (String.mk schemeCs), host := String.mk host,
                  path := String.mk path }
         else none)
    | none => some { scheme := "", host := "", path := raw }

/-- Models `URL.Hostname()`: the host with any `:port` suffix removed. -/
def GoURL.hostname (u : GoURL) : String :=
  String.mk (u.host.toList.takeWhile (fun c => c != ':'))

/-- Models `URL.String()`: the normalized serialization the parser
re-emits. -/
def GoURL.render (u : GoURL) : String :=
  if u.scheme == "" then u.path else u.scheme ++ "://" ++ u.host ++ u.path

/-- Models Go `strings.Split(s, ".")` on a hostname: the dot-separated
labels (splitting the empty string yields one empty label). -/
def splitOnDotAux (acc : List Char) : List Char → List (List Char)
  | [] => [acc.reverse]
  | c :: rest =>
    if c = '.' then acc.reverse :: splitOnDotAux [] rest
    else splitOnDotAux (c :: acc) rest

/-- The dot-separated labels of a hostname. -/
def hostLabels (s : String) : List (List Char) :=
  splitOnDotAux [] s.toList

/-- Models Go `strings.Join(parts, ".")`. -/
def joinDot : List (List Char) → List Char
  | [] => []
  | [p] => p
  | p :: q :: rest => p ++ '.' :: joinDot (q :: rest)

/-- Embedding of `getDomainParts` (crawler.go, lines 1313-1325): for
level 1/2/3 with enough labels, the last 3/2/1 labels joined with dots
(the level-3 branch returns `parts[partCount-1]`, i.e. the single last
label); otherwise all labels joined. -/
def getDomainParts (parts : List (List Char)) (level : Int) : List Char :=
  let partCount := parts.length
  if level == 1 && partCount ≥ 3 then joinDot (parts.drop (partCount - 3))
  else if level == 2 && partCount ≥ 2 then joinDot (parts.drop (partCount - 2))
  else if level == 3 && partCount ≥ 1 then joinDot (parts.drop (partCount - 1))
  else joinDot parts

/-- Embedding of `isExternalLink` (crawler.go, lines 1276-1310):
level 4 accepts everything; a trimmed link starting with `/` is never
external; parse failures are never external; level 0 compares the two
normalized serializations; other levels compare `getDomainParts` of the
two hostnames. -/
def isExternalLink (sourceURL linkURL : String) (domainLevel : Int) : Bool :=
  if domainLevel == 4 then false
  else
    let linkURL := trimSpace linkURL
    if strHasPrefix linkURL "/" then false
    else
      match parseURL sourceURL with
      | none => false
      | some sp =>
        match parseURL linkURL with
        | none => false
        | some lp =>
          let srcDomainParts := hostLabels sp.hostname
          let linkDomainParts := hostLabels lp.hostname
          if domainLevel == 0 then sp.render != lp.render
          else getDomainParts srcDomainParts domainLevel !=
                 getDomainParts linkDomainParts domainLevel

/-- The last `k` labels of a label list; when the list has fewer than `k`
labels, all of them (the fallback `getDomainParts` applies). -/
def lastKLabels (k : Nat) (parts : List (List Char)) : List (List Char) :=
  parts.drop (parts.length - k)

/-- The amended claim C4 as a definition, following its words: scope 4
never filters; a URL whose trimmed form starts with `/` (a relative URL)
is never external; a URL is never external when either URL fails to
parse; for scope 0 a URL is external exactly when its parsed, normalized
serialization differs from the seed's; for scopes 1, 2, 3 a URL is
external exactly when the last 3, 2 or 1 dot-separated hostname labels
(all of them when a hostname has fewer) differ from the seed hostname's
corresponding labels; any other scope compares all labels. -/
def isExternalLinkAmended (sourceURL linkURL : String) (domainLevel : Int) : Bool :=
  if domainLevel == 4 then false
  else if strHasPrefix (trimSpace linkURL) "/" then false
  else
    match parseURL sourceURL, parseURL (trimSpace linkURL) with
    | some sp, some lp =>
      let srcLabels := hostLabels sp.hostname
      let linkLabels := hostLabels lp.hostname
      if domainLevel == 0 then decide (sp.render ≠ lp.render)
      else if domainLevel == 1 then decide (lastKLabels 3 srcLabels ≠ lastKLabels 3 linkLabels)
      else if domainLevel == 2 then decide (lastKLabels 2 srcLabels ≠ lastKLabels 2 linkLabels)
      else if domainLevel == 3 then decide (lastKLabels 1 srcLabels ≠ lastKLabels 1 linkLabels)
      else decide (srcLabels ≠ linkLabels)
    | _, _ => false

/-! # Theorems for the claims -/

/-- C10: `strLeft` is total — for any string `s` and integer `x` it
returns the first `x` runes when `0 ≤ x ≤` the rune length of `s`, and
returns `s` unchanged when `x` is negative or exceeds the rune length —
and `insertOrUpdateSearchIndex` passes `detected_lang` and
`detected_type` through `strLeft(·, 8)`, so every `SearchIndex` row
stores both truncated to at most 8 characters. -/
theorem strLeft_total_and_searchindex_truncation :
    ∀ (s : String) (x : Int),
      (0 ≤ x → x ≤ (s.toList.length : Int) →
        strLeft s x = String.mk (s.toList.take x.toNat)) ∧
      (x < 0 ∨ (s.toList.length : Int) < x → strLeft s x = s) ∧
      (∀ (url : String) (p : PageInfo),
        (insertOrUpdateSearchIndexRow url p).detected_lang = strLeft p.detectedLang 8 ∧
        (insertOrUpdateSearchIndexRow url p).detected_type = strLeft p.detectedType 8 ∧
        (insertOrUpdateSearchIndexRow url p).detected_lang.length ≤ 8 ∧
        (insertOrUpdateSearchIndexRow url p).detected_type.length ≤ 8) := by
  have key : ∀ t : String, (strLeft t 8).length ≤ 8 := by
    intro t
    simp only [strLeft]
    split
    · rename_i h
      have hlen : t.toList.length < 8 := by omega
      have : t.length = t.toList.length := rfl
      omega
    · show (t.toList.take (8 : Int).toNat).length ≤ 8
      rw [List.length_take]
      exact Nat.min_le_left _ _
  intro s x
  refine ⟨?_, ?_, ?_⟩
  · intro h1 h2
    simp only [strLeft]
    rw [if_neg (by omega)]
  · intro h
    simp only [strLeft]
    rw [if_pos h]
  · intro url p
    exact ⟨rfl, rfl, key p.detectedLang, key p.detectedType⟩

/-- C10 witness: `strLeft` at concrete inputs, through the theorem. -/
theorem strLeft_total_and_searchindex_truncation_witness :
    ((0 : Int) ≤ 3 ∧ (3 : Int) ≤ ("abcdef".toList.length : Int) ∧
      strLeft "abcdef" 3 = String.mk ("abcdef".toList.take (3 : Int).toNat)) ∧
    (((-1 : Int) < 0 ∨ ("abcdef".toList.length : Int) < -1) ∧
      strLeft "abcdef" (-1) = "abcdef") :=
  ⟨⟨by norm_num, by norm_num,
      (strLeft_total_and_searchindex_truncation "abcdef" 3).1 (by norm_num) (by norm_num)⟩,
   ⟨Or.inl (by norm_num),
      (strLeft_total_and_searchindex_truncation "abcdef" (-1)).2.1 (Or.inl (by norm_num))⟩⟩

/-- C8, counterexample: releasing a source on success does not clear
`last_error` (the success branch of `updateSourceState` only sets
`last_crawled_at` and `status`), and the `Sources` trigger modifies the
further column `last_updated_at`; both contradict the claim at this
concrete row. -/
theorem updateSourceState_success_counterexample :
    (updateSourceStateRow 100 none
        ⟨1, "http://a.test/", some "processing", some 50, some 40,
         some "old boom", some 10, 2, false, 0, none⟩).last_error = some "old boom" ∧
    (updateSourceStateRow 100 none
        ⟨1, "http://a.test/", some "processing", some 50, some 40,
         some "old boom", some 10, 2, false, 0, none⟩).last_updated_at ≠ some 50 := by
  refine ⟨rfl, ?_⟩
  simp [updateSourceStateRow]

/-- C8, amended: on success the release sets `status = 'completed'` and
`last_crawled_at = now`, leaving `last_error` and `last_error_at`
untouched; on failure it sets `status = 'error'`, `last_crawled_at = now`,
`last_error` to the message and `last_error_at = now`; in both cases the
table trigger also refreshes `last_updated_at`, and no further column
changes. -/
theorem updateSourceState_release_frame :
    ∀ (now : Int) (msg : String) (row : SourceRow),
      updateSourceStateRow now none row =
        { row with status := some "completed", last_crawled_at := some now,
                   last_updated_at := some now } ∧
      updateSourceStateRow now (some msg) row =
        { row with status := some "error", last_crawled_at := some now,
                   last_error := some msg, last_error_at := some now,
                   last_updated_at := some now } :=
  fun _ _ _ => ⟨rfl, rfl⟩

/-- C9: pre-condition URL patterns are not ANDed — the loop of
`checkScrapingPreConditions` (and of `checkActionPreConditions`)
overwrites its flag on every iteration, so the last pattern alone
decides. At this input the first pattern does not match the URL, yet
both functions return `true`. -/
theorem preConditions_last_pattern_wins :
    checkScrapingPreConditions ["nomatch", "a.test"] "http://a.test/x" = true ∧
    checkActionPreConditions ["nomatch", "a.test"] "http://a.test/x" = true ∧
    strContains "http://a.test/x" "nomatch" = false ∧
    strContains "http://a.test/x" "a.test" = true := by
  decide

/-- C3: on a worker-crawled page, `processJob` passes
`pageCache.BodyText` — the visible text — to `extractLinks`, so the
anchor of this page is lost ([], not the href list), while the same
page's HTML yields the link, as `extractLinks`'s own documentation and
the seed path (`CrawlWebsite`) prescribe. -/
theorem processJob_extracts_links_from_body_text :
    processJobNewLinks
        "<html><body><a href=\"https://x.test/page\">next page</a></body></html>" = [] ∧
    crawlWebsiteInitialLinks
        "<html><body><a href=\"https://x.test/page\">next page</a></body></html>" =
      ["https://x.test/page"] ∧
    pageBodyText
        "<html><body><a href=\"https://x.test/page\">next page</a></body></html>" =
      "next page" := by
  refine ⟨by decide, by decide, by decide⟩

/-- C5, counterexample: an action rule whose `Conditions` carry
`language = "en"` and a `plugin_call` whose plugin returns `"true"` is
applied to a page whose document language is `"fr"` — the `plugin_call`
branch of `checkActionConditions` overwrites the `canProceed = false`
set by the failed language check. -/
theorem checkActionConditions_plugin_overrides_language :
    checkActionConditions ⟨[("p1", some "true")]⟩ ⟨[], some "fr"⟩
        [("language", "en"), ("plugin_call", "x"), ("selector", "p1")] = true ∧
    actionRuleApplies ⟨[("p1", some "true")]⟩ ⟨[], some "fr"⟩
        [("language", "en"), ("plugin_call", "x"), ("selector", "p1")] = true ∧
    (some "fr" : Option String) ≠ some "en" := by
  decide

/-- C7, counterexample: a rule error containing `"Critical"` does not
abort a rule group — `executeScrapingRulesInRuleGroup` has no
`"Critical"` check and executes the rule after the failing one (indices
0, 1 and 2 all run), while the ruleset variant stops after index 1. -/
theorem ruleGroup_continues_after_critical :
    (executeScrapingRulesInRuleGroup
        [⟨"a", none⟩, ⟨"", some "Critical: boom"⟩, ⟨"b", none⟩]).1 = [0, 1, 2] ∧
    isCriticalErr (some "Critical: boom") = true ∧
    (executeScrapingRulesInRuleset
        [⟨"a", none⟩, ⟨"", some "Critical: boom"⟩, ⟨"b", none⟩]).1 = [0, 1] := by
  decide

/-- C2, counterexample: with the second keyword's dictionary upsert
failing, `indexPage` rolls the transaction back, yet the first keyword's
dictionary write — issued on the `db` connection outside the transaction —
persists: the call is not free of partial writes. Moreover a keyword
upsert that deadlocks on every attempt is executed 3 times in total (2
retries, not 3) and the backoffs are 0 ms and 100 ms (not 100·attempt). -/
theorem indexPage_keyword_writes_escape_transaction :
    (indexPage ⟨some 5, true, [true],
        [⟨"k1", fun _ => .ok 7, true⟩, ⟨"k2", fun _ => .failure, true⟩]⟩).committed
      = false ∧
    persistedWrites (indexPage ⟨some 5, true, [true],
        [⟨"k1", fun _ => .ok 7, true⟩, ⟨"k2", fun _ => .failure, true⟩]⟩)
      = [DBEvent.dbKeywordUpsert "k1"] ∧
    insertKeywordWithRetries (fun _ => KwOutcome.deadlock)
      = ⟨none, 3, [0, 100]⟩ := by
  decide

/-- C5, amended: a `language` guard is conclusive for scraping rules —
`checkScrapingConditions` returns false and `shouldExecuteScrapingRule`
refuses the rule whenever the document language differs — and for action
rules whenever the `Conditions` map carries no `plugin_call` entry; a
`plugin_call` whose plugin returns `"true"` overwrites the language
rejection (see the counterexample). -/
theorem language_condition_conclusive :
    ∀ (page : BrowserPage) (conds : List (String × String)) (L : String),
      condLookup conds "language" = some L →
      page.lang ≠ some L →
      checkScrapingConditions page conds = false ∧
      shouldExecuteScrapingRule page conds = false ∧
      (∀ reg : PluginRegistry, condLookup conds "plugin_call" = none →
        checkActionConditions reg page conds = false ∧
        actionRuleApplies reg page conds = false) := by
  intro page conds L hL hne
  have hpos : conds.length > 0 := by
    cases conds with
    | nil => simp [condLookup] at hL
    | cons a t => simp
  have hb : (page.lang != some L) = true := bne_iff_ne.mpr hne
  have hlen0 : (conds.length == 0) = false := by
    cases conds with
    | nil => simp at hpos
    | cons a t => simp
  have hscrap : checkScrapingConditions page conds = false := by
    simp only [checkScrapingConditions, if_pos hpos, hL, hb, if_true]
  refine ⟨hscrap, ?_, ?_⟩
  · simp only [shouldExecuteScrapingRule, hscrap, hlen0, Bool.or_false]
  · intro reg hpc
    have hact : checkActionConditions reg page conds = false := by
      simp only [checkActionConditions, if_pos hpos, hL, hpc, hb, if_true]
    exact ⟨hact, by simp only [actionRuleApplies, hact, hlen0, Bool.or_false]⟩

/-- C5 witness: the amended theorem applied at a French page and an
`"en"` language condition. -/
theorem language_condition_conclusive_witness :
    condLookup [("language", "en")] "language" = some "en" ∧
    (some "fr" : Option String) ≠ some "en" ∧
    condLookup [("language", "en")] "plugin_call" = none ∧
    checkScrapingConditions ⟨[], some "fr"⟩ [("language", "en")] = false ∧
    shouldExecuteScrapingRule ⟨[], some "fr"⟩ [("language", "en")] = false ∧
    checkActionConditions ⟨[]⟩ ⟨[], some "fr"⟩ [("language", "en")] = false :=
  ⟨by decide, by decide, by decide,
    (language_condition_conclusive ⟨[], some "fr"⟩ [("language", "en")] "en"
      (by decide) (by decide)).1,
    (language_condition_conclusive ⟨[], some "fr"⟩ [("language", "en")] "en"
      (by decide) (by decide)).2.1,
    ((language_condition_conclusive ⟨[], some "fr"⟩ [("language", "en")] "en"
      (by decide) (by decide)).2.2 ⟨[]⟩ (by decide)).1⟩

/-- Every rule of a rule group is executed whatever the errors are. -/
theorem ruleGroupLoop_executes_all (rs : List ScrapeOutcome) :
    ∀ (o : Nat) (doc : String) (e : Option String),
      (ruleGroupLoop rs o doc e).1 = List.range' o rs.length := by
  induction rs with
  | nil => intro o doc e; simp [ruleGroupLoop, List.range']
  | cons r rest ih =>
    intro o doc e
    simp [ruleGroupLoop, ih, List.range'_succ]

/-- The ruleset loop executes exactly the rules up to and including the
first `"Critical"` error and returns that error. -/
theorem rulesetLoop_stops_at_critical :
    ∀ (rs : List ScrapeOutcome) (i : Nat) (hi : i < rs.length) (o : Nat) (doc : String),
      isCriticalErr ((rs.get ⟨i, hi⟩).err) = true →
      (∀ j (hj : j < i), isCriticalErr ((rs.get ⟨j, Nat.lt_trans hj hi⟩).err) = false) →
      (rulesetLoop rs o doc).1 = List.range' o (i + 1) ∧
      (rulesetLoop rs o doc).2.2 = (rs.get ⟨i, hi⟩).err := by
  intro rs
  induction rs with
  | nil => intro i hi; exact absurd hi (by simp)
  | cons r rest ih =>
    intro i hi o doc hcrit hbefore
    cases i with
    | zero =>
      simp only [List.get] at hcrit
      simp [rulesetLoop, hcrit, List.range'_succ, List.range']
    | succ i' =>
      have hr : isCriticalErr r.err = false := by
        have := hbefore 0 (Nat.succ_pos i')
        simpa [List.get] using this
      have hi' : i' < rest.length := Nat.lt_of_succ_lt_succ hi
      have hcrit' : isCriticalErr ((rest.get ⟨i', hi'⟩).err) = true := by
        simpa [List.get] using hcrit
      have hbefore' : ∀ j (hj : j < i'),
          isCriticalErr ((rest.get ⟨j, Nat.lt_trans hj hi'⟩).err) = false := by
        intro j hj
        have := hbefore (j + 1) (Nat.succ_lt_succ hj)
        simpa [List.get] using this
      have hrec := ih i' hi' (o + 1) (addScrapedDataToDocument doc r.data) hcrit' hbefore'
      simp only [rulesetLoop, hr, Bool.false_eq_true, if_false]
      refine ⟨?_, ?_⟩
      · rw [hrec.1]
        simp [List.range'_succ]
      · simpa [List.get] using hrec.2

/-- C7, amended: a rule error containing `"Critical"` aborts the
enclosing *ruleset* immediately — the rules after it are not executed and
the error is returned — but it does not abort a *rule group*:
`executeScrapingRulesInRuleGroup` executes every rule regardless. -/
theorem critical_error_abort (rs : List ScrapeOutcome) (i : Nat) (hi : i < rs.length)
    (hcrit : isCriticalErr ((rs.get ⟨i, hi⟩).err) = true)
    (hbefore : ∀ j (hj : j < i), isCriticalErr ((rs.get ⟨j, Nat.lt_trans hj hi⟩).err) = false) :
    (executeScrapingRulesInRuleset rs).1 = List.range (i + 1) ∧
    (executeScrapingRulesInRuleset rs).2.2 = (rs.get ⟨i, hi⟩).err ∧
    (executeScrapingRulesInRuleGroup rs).1 = List.range rs.length := by
  have h := rulesetLoop_stops_at_critical rs i hi 0 "" hcrit hbefore
  refine ⟨?_, h.2, ?_⟩
  · rw [List.range_eq_range']
    exact h.1
  · rw [List.range_eq_range']
    exact ruleGroupLoop_executes_all rs 0 "" none

/-- C7 witness: the amended theorem at a three-rule collection whose
second rule fails with a `"Critical"` error. -/
theorem critical_error_abort_witness :
    isCriticalErr ((([⟨"a", none⟩, ⟨"", some "Critical: boom"⟩, ⟨"b", none⟩] :
        List ScrapeOutcome).get ⟨1, by decide⟩).err) = true ∧
    (executeScrapingRulesInRuleset
        [⟨"a", none⟩, ⟨"", some "Critical: boom"⟩, ⟨"b", none⟩]).1 = List.range 2 ∧
    (executeScrapingRulesInRuleGroup
        [⟨"a", none⟩, ⟨"", some "Critical: boom"⟩, ⟨"b", none⟩]).1 = List.range 3 := by
  have h := critical_error_abort
    [⟨"a", none⟩, ⟨"", some "Critical: boom"⟩, ⟨"b", none⟩] 1 (by decide)
    (by decide)
    (by
      intro j hj
      have hj0 : j = 0 := by omega
      subst hj0
      exact rfl)
  exact ⟨by decide, h.1, h.2.2⟩

/-- The meta-tag loop succeeds exactly when every meta insert does. -/
theorem insertMetaTagsLoop_snd (metas : List Bool) :
    ∀ i, (insertMetaTagsLoop metas i).2 = metas.all id := by
  induction metas with
  | nil => intro i; simp [insertMetaTagsLoop]
  | cons ok rest ih =>
    intro i
    cases ok with
    | true => simp [insertMetaTagsLoop, ih]
    | false => simp [insertMetaTagsLoop]

/-- The keyword loop succeeds exactly when every keyword's dictionary
upsert and posting do. -/
theorem insertKeywordsLoop_snd (ks : List KwSpec) :
    (insertKeywordsLoop ks).2 =
      ks.all (fun k => (insertKeywordWithRetries k.upsert).keywordID.isSome && k.postingOk) := by
  induction ks with
  | nil => simp [insertKeywordsLoop]
  | cons k rest ih =>
    simp only [insertKeywordsLoop, List.all_cons]
    cases hk : (insertKeywordWithRetries k.upsert).keywordID with
    | none => simp [hk]
    | some kid =>
      cases hp : k.postingOk with
      | false => simp [hk, hp]
      | true => simp [hk, hp, ih]

/-- Exhaustive characterization of `insertKeywordWithRetries` over the
first three attempt outcomes. -/
theorem insertKeywordWithRetries_spec (outcome : Nat → KwOutcome) :
    (insertKeywordWithRetries outcome).attempts ≤ 3 ∧
    (insertKeywordWithRetries outcome).sleepsMs =
      (List.range ((insertKeywordWithRetries outcome).attempts - 1)).map (fun k => k * 100) ∧
    (outcome 0 = KwOutcome.failure →
      insertKeywordWithRetries outcome = ⟨none, 1, []⟩) ∧
    (∀ id, (insertKeywordWithRetries outcome).keywordID = some id →
      outcome ((insertKeywordWithRetries outcome).attempts - 1) = KwOutcome.ok id) := by
  rcases h0 : outcome 0 with id0 | _ | _ <;>
    rcases h1 : outcome 1 with id1 | _ | _ <;>
      rcases h2 : outcome 2 with id2 | _ | _ <;>
        simp_all [insertKeywordWithRetries, insertKeywordLoop, maxRetries,
          List.range_succ]

/-- C2, amended: the transaction of `indexPage` commits exactly when the
page upsert, the source link, every meta-tag write, every keyword
dictionary upsert and every posting succeed; on any failure it is rolled
back and the only persisting writes are the keyword-dictionary upserts,
which run on the `db` connection outside the transaction; a keyword
upsert is attempted at most 3 times in total, sleeping `i·100` ms after
failed attempt `i` (0 ms, then 100 ms), deadlocks being the only retried
error; a successful result comes from its last attempt. -/
theorem indexPage_transaction_policy :
    ∀ (o : IndexOracle),
      ((indexPage o).committed = true ↔ indexAllOk o = true) ∧
      (indexAllOk o = false →
        (indexPage o).committed = false ∧
        persistedWrites (indexPage o) = (indexPage o).events.filter isDbKeywordWrite) ∧
      (∀ outcome : Nat → KwOutcome,
        (insertKeywordWithRetries outcome).attempts ≤ 3 ∧
        (insertKeywordWithRetries outcome).sleepsMs =
          (List.range ((insertKeywordWithRetries outcome).attempts - 1)).map
            (fun k => k * 100) ∧
        (outcome 0 = KwOutcome.failure →
          insertKeywordWithRetries outcome = ⟨none, 1, []⟩) ∧
        (∀ id, (insertKeywordWithRetries outcome).keywordID = some id →
          outcome ((insertKeywordWithRetries outcome).attempts - 1) = KwOutcome.ok id)) := by
  intro o
  have hcommit : (indexPage o).committed = indexAllOk o := by
    obtain ⟨ur, lk, ms, ks⟩ := o
    cases ur with
    | none => simp [indexPage, indexAllOk]
    | some indexID =>
      cases lk with
      | false => simp [indexPage, indexAllOk]
      | true =>
        cases hm : (insertMetaTagsLoop ms 0).2 with
        | false =>
          simp [indexPage, indexAllOk, hm, ← insertMetaTagsLoop_snd ms 0]
        | true =>
          simp [indexPage, indexAllOk, hm, ← insertMetaTagsLoop_snd ms 0,
            insertKeywordsLoop_snd]
  refine ⟨by rw [hcommit], ?_, fun outcome => insertKeywordWithRetries_spec outcome⟩
  intro hfail
  have hc : (indexPage o).committed = false := by rw [hcommit, hfail]
  refine ⟨hc, ?_⟩
  simp [persistedWrites, hc]

/-- C2 witness: the amended theorem at the oracle whose second keyword
upsert fails. -/
theorem indexPage_transaction_policy_witness :
    indexAllOk ⟨some 5, true, [true],
        [⟨"k1", fun _ => .ok 7, true⟩, ⟨"k2", fun _ => .failure, true⟩]⟩ = false ∧
    (indexPage ⟨some 5, true, [true],
        [⟨"k1", fun _ => .ok 7, true⟩, ⟨"k2", fun _ => .failure, true⟩]⟩).committed = false ∧
    ((fun _ => KwOutcome.failure) 0 = KwOutcome.failure →
      insertKeywordWithRetries (fun _ => KwOutcome.failure) = ⟨none, 1, []⟩) :=
  ⟨by decide,
   ((indexPage_transaction_policy ⟨some 5, true, [true],
        [⟨"k1", fun _ => .ok 7, true⟩, ⟨"k2", fun _ => .failure, true⟩]⟩).2.1
      (by decide)).1,
   ((indexPage_transaction_policy ⟨some 5, true, [true],
        [⟨"k1", fun _ => .ok 7, true⟩, ⟨"k2", fun _ => .failure, true⟩]⟩).2.2
      (fun _ => KwOutcome.failure)).2.2.1⟩

/-- One unfolding step of the retry loop. -/
theorem executeRuleRetryLoop_step (eh : ErrorHandling) (outcome : Nat → Bool)
    (k f : Nat) :
    executeRuleRetryLoop eh outcome k (f + 1) =
      (if outcome k then
        { attempts := 1,
          sleepsSec := if eh.retryDelay > 0 then [eh.retryDelay] else [],
          succeeded := true }
      else if (executeRuleRetryLoop eh outcome (k + 1) f).attempts == 0 then
        { attempts := 1,
          sleepsSec := if eh.retryDelay > 0 then [eh.retryDelay] else [],
          succeeded := false }
      else
        { attempts := (executeRuleRetryLoop eh outcome (k + 1) f).attempts + 1,
          sleepsSec := (if eh.retryDelay > 0 then [eh.retryDelay] else []) ++
            (executeRuleRetryLoop eh outcome (k + 1) f).sleepsSec,
          succeeded := (executeRuleRetryLoop eh outcome (k + 1) f).succeeded }) := rfl

/-- When every attempt fails, the retry loop uses all its iterations,
sleeping before each. -/
theorem executeRuleRetryLoop_all_fail (eh : ErrorHandling) (outcome : Nat → Bool) :
    ∀ (fuel k : Nat), 0 < fuel → (∀ j, k ≤ j → j < k + fuel → outcome j = false) →
      executeRuleRetryLoop eh outcome k fuel =
        ⟨fuel, if eh.retryDelay > 0 then List.replicate fuel eh.retryDelay else [], false⟩ := by
  intro fuel
  induction fuel with
  | zero => intro k h; omega
  | succ f ih =>
    intro k _ hfail
    have hk : outcome k = false := hfail k (Nat.le_refl k) (by omega)
    cases f with
    | zero =>
      rw [executeRuleRetryLoop_step]
      simp [executeRuleRetryLoop, hk]
    | succ f' =>
      have hrest := ih (k + 1) (Nat.succ_pos f') (fun j h1 h2 => hfail j (by omega) (by omega))
      rw [executeRuleRetryLoop_step, hrest]
      simp only [hk, Bool.false_eq_true, if_false]
      by_cases hd : eh.retryDelay > 0
      · simp [hd, List.replicate_succ]
      · simp [hd]

/-- When the first success is the `m`-th loop attempt, the loop stops
there. -/
theorem executeRuleRetryLoop_first_success (eh : ErrorHandling) (outcome : Nat → Bool) :
    ∀ (fuel k m : Nat), m < fuel → outcome (k + m) = true →
      (∀ j, k ≤ j → j < k + m → outcome j = false) →
      (executeRuleRetryLoop eh outcome k fuel).attempts = m + 1 ∧
      (executeRuleRetryLoop eh outcome k fuel).succeeded = true := by
  intro fuel
  induction fuel with
  | zero => intro k m h; omega
  | succ f ih =>
    intro k m hm hsucc hfail
    cases m with
    | zero =>
      have hk : outcome k = true := by simpa using hsucc
      simp [executeRuleRetryLoop, hk]
    | succ m' =>
      have hk : outcome k = false := hfail k (Nat.le_refl k) (by omega)
      have hrest := ih (k + 1) m' (by omega) (by
          have : k + 1 + m' = k + (m' + 1) := by omega
          rw [this]; exact hsucc)
        (fun j h1 h2 => hfail j (by omega) (by omega))
      have hne : (executeRuleRetryLoop eh outcome (k + 1) f).attempts ≠ 0 := by
        rw [hrest.1]; omega
      simp only [executeRuleRetryLoop, hk, Bool.false_eq_true, if_false]
      rw [if_neg (by simpa using hne)]
      exact ⟨by rw [hrest.1], hrest.2⟩

/-- The loop never exceeds its fuel. -/
theorem executeRuleRetryLoop_attempts_le (eh : ErrorHandling) (outcome : Nat → Bool) :
    ∀ (fuel k : Nat), (executeRuleRetryLoop eh outcome k fuel).attempts ≤ fuel := by
  intro fuel
  induction fuel with
  | zero => intro k; simp [executeRuleRetryLoop]
  | succ f ih =>
    intro k
    simp only [executeRuleRetryLoop]
    by_cases hk : outcome k = true
    · simp [hk]
    · simp only [hk, Bool.false_eq_true, if_false]
      split
      · simp
      · have := ih (k + 1)
        simp
        omega

/-- C6: a failing action rule with `ignore = false` and
`retry_count = N > 0` is attempted `N + 1` times in total when every
attempt fails — sleeping `retry_delay` seconds before each of the `N`
retries — stops at the first success, never exceeds `N + 1` attempts,
and `executeActionRules` runs every rule of its list regardless of
failures, so a rule failure never aborts the crawl session. -/
theorem executeRule_retry_policy :
    ∀ (eh : ErrorHandling) (outcome : Nat → Bool) (N : Nat),
      eh.ignore = false → eh.retryCount = (N : Int) → 0 < N →
      ((∀ j, j ≤ N → outcome j = false) →
        executeRule eh outcome =
          ⟨N + 1, if eh.retryDelay > 0 then List.replicate N eh.retryDelay else [],
            false⟩) ∧
      (∀ k, k ≤ N → outcome k = true → (∀ j, j < k → outcome j = false) →
        (executeRule eh outcome).attempts = k + 1 ∧
        (executeRule eh outcome).succeeded = true) ∧
      (executeRule eh outcome).attempts ≤ N + 1 ∧
      (∀ rules : List (ErrorHandling × (Nat → Bool)),
        (executeActionRules rules).length = rules.length) := by
  intro eh outcome N hig hN hpos
  have hcnt : eh.retryCount > 0 := by rw [hN]; exact_mod_cast hpos
  have htn : eh.retryCount.toNat = N := by rw [hN]; exact Int.toNat_natCast N
  refine ⟨?_, ?_, ?_, ?_⟩
  · intro hfail
    have h0 : outcome 0 = false := hfail 0 (Nat.zero_le N)
    have hloop := executeRuleRetryLoop_all_fail eh outcome N 1 hpos
      (fun j h1 h2 => hfail j (by omega))
    simp only [executeRule, h0, Bool.false_eq_true, if_false, hig, if_pos hcnt, htn, hloop]
  · intro k hk hsucc hfail
    cases k with
    | zero => simp [executeRule, hsucc]
    | succ k' =>
      have h0 : outcome 0 = false := hfail 0 (Nat.succ_pos k')
      have hloop := executeRuleRetryLoop_first_success eh outcome N 1 k' (by omega)
        (by simpa [Nat.add_comm] using hsucc)
        (fun j h1 h2 => hfail j (by omega))
      simp only [executeRule, h0, Bool.false_eq_true, if_false, hig, if_pos hcnt, htn]
      exact ⟨by rw [hloop.1], hloop.2⟩
  · by_cases h0 : outcome 0 = true
    · simp [executeRule, h0]
    · simp only [executeRule, h0, Bool.false_eq_true, if_false, hig, if_pos hcnt, htn]
      have := executeRuleRetryLoop_attempts_le eh outcome N 1
      omega
  · intro rules
    simp [executeActionRules]

/-- C6 witness: the retry policy at `retry_count = 2`, `retry_delay = 1`:
3 attempts and 2 sleeps when every attempt fails; 2 attempts when the
first retry succeeds. -/
theorem executeRule_retry_policy_witness :
    (⟨2, 1, false⟩ : ErrorHandling).ignore = false ∧
    (⟨2, 1, false⟩ : ErrorHandling).retryCount = ((2 : Nat) : Int) ∧
    0 < 2 ∧
    executeRule ⟨2, 1, false⟩ (fun _ => false) = ⟨3, [1, 1], false⟩ ∧
    (executeRule ⟨2, 1, false⟩ (fun k => k == 1)).attempts = 2 := by
  refine ⟨rfl, rfl, by norm_num, ?_, ?_⟩
  · have h := (executeRule_retry_policy ⟨2, 1, false⟩ (fun _ => false) 2 rfl rfl
      (by norm_num)).1 (fun j _ => rfl)
    simpa using h
  · have h := ((executeRule_retry_policy ⟨2, 1, false⟩ (fun k => k == 1) 2 rfl rfl
      (by norm_num)).2.1 1 (by norm_num) (by decide)
      (fun j hj => by
        have : j = 0 := by omega
        subst this
        decide)).1
    simpa using h

/-- Splitting on dots yields at least one label. -/
theorem splitOnDotAux_ne_nil : ∀ (l : List Char) (acc : List Char),
    splitOnDotAux acc l ≠ [] := by
  intro l
  induction l with
  | nil => intro acc; simp [splitOnDotAux]
  | cons c rest ih =>
    intro acc
    simp only [splitOnDotAux]
    split
    · simp
    · exact ih (c :: acc)

/-- Labels produced by splitting on dots contain no dot. -/
theorem splitOnDotAux_dotFree : ∀ (l : List Char) (acc : List Char),
    ('.' ∉ acc) → ∀ p ∈ splitOnDotAux acc l, '.' ∉ p := by
  intro l
  induction l with
  | nil =>
    intro acc hacc p hp
    simp [splitOnDotAux] at hp
    subst hp
    simpa using hacc
  | cons c rest ih =>
    intro acc hacc p hp
    simp only [splitOnDotAux] at hp
    split at hp
    · rcases List.mem_cons.mp hp with h | h
      · subst h; simpa using hacc
      · exact ih [] (by simp) p h
    · rename_i hc
      refine ih (c :: acc) ?_ p hp
      simp only [List.mem_cons, not_or]
      exact ⟨fun h => hc h.symm, hacc⟩

/-- The labels of a hostname: never empty. -/
theorem hostLabels_ne_nil (s : String) : hostLabels s ≠ [] :=
  splitOnDotAux_ne_nil s.toList []

/-- The labels of a hostname: dot-free. -/
theorem hostLabels_dotFree (s : String) : ∀ p ∈ hostLabels s, '.' ∉ p :=
  splitOnDotAux_dotFree s.toList [] (by simp)

/-- Splitting a dotted concatenation of two dot-free prefixes: the
prefixes and the tails agree. -/
theorem append_dot_inj : ∀ (x y u v : List Char), '.' ∉ x → '.' ∉ y →
    x ++ '.' :: u = y ++ '.' :: v → x = y ∧ u = v := by
  intro x
  induction x with
  | nil =>
    intro y u v _ hy h
    cases y with
    | nil => simpa using h
    | cons d y' =>
      simp only [List.nil_append, List.cons_append, List.cons.injEq] at h
      exfalso
      apply hy
      rw [← h.1]
      simp
  | cons c x' ih =>
    intro y u v hx hy h
    cases y with
    | nil =>
      simp only [List.cons_append, List.nil_append, List.cons.injEq] at h
      exfalso
      apply hx
      rw [h.1]
      simp
    | cons d y' =>
      simp only [List.cons_append, List.cons.injEq] at h
      obtain ⟨hcd, hrest⟩ := h
      have := ih y' u v (fun hm => hx (List.mem_cons_of_mem c hm))
        (fun hm => hy (List.mem_cons_of_mem d hm)) hrest
      exact ⟨by rw [hcd, this.1], this.2⟩

/-- `joinDot` is injective on nonempty lists of dot-free labels. -/
theorem joinDot_eq_iff : ∀ (a b : List (List Char)), a ≠ [] → b ≠ [] →
    (∀ p ∈ a, '.' ∉ p) → (∀ p ∈ b, '.' ∉ p) →
    (joinDot a = joinDot b ↔ a = b) := by
  intro a
  induction a with
  | nil => intro b ha; exact absurd rfl ha
  | cons p a' ih =>
    intro b _ hb hda hdb
    cases b with
    | nil => exact absurd rfl hb
    | cons q b' =>
      cases a' with
      | nil =>
        cases b' with
        | nil => simp [joinDot]
        | cons q' b'' =>
          simp only [joinDot]
          constructor
          · intro h
            exfalso
            apply hda p (by simp)
            rw [h]
            exact List.mem_append_right q (by simp)
          · intro h
            simp at h
      | cons p' a'' =>
        cases b' with
        | nil =>
          simp only [joinDot]
          constructor
          · intro h
            exfalso
            apply hdb q (by simp)
            rw [← h]
            exact List.mem_append_right p (by simp)
          · intro h
            simp at h
        | cons q' b'' =>
          simp only [joinDot]
          constructor
          · intro h
            have hpq := append_dot_inj p q (joinDot (p' :: a'')) (joinDot (q' :: b''))
              (hda p (by simp)) (hdb q (by simp)) h
            have htail := (ih (q' :: b'') (by simp) (by simp)
              (fun r hr => hda r (List.mem_cons_of_mem p hr))
              (fun r hr => hdb r (List.mem_cons_of_mem q hr))).mp hpq.2
            rw [hpq.1, htail]
          · intro h
            injection h with h1 h2
            rw [h1, h2]

/-- For levels 1, 2, 3 the `getDomainParts` string is the dot-join of the
last 3, 2, 1 labels (all labels when there are fewer). -/
theorem getDomainParts_eq_lastK (parts : List (List Char)) :
    getDomainParts parts 1 = joinDot (lastKLabels 3 parts) ∧
    getDomainParts parts 2 = joinDot (lastKLabels 2 parts) ∧
    getDomainParts parts 3 = joinDot (lastKLabels 1 parts) := by
  unfold getDomainParts lastKLabels
  refine ⟨?_, ?_, ?_⟩
  · by_cases h : parts.length ≥ 3
    · simp [h]
    · have hz : parts.length - 3 = 0 := by omega
      simp [h, hz]
  · by_cases h : parts.length ≥ 2
    · simp [h]
    · have hz : parts.length - 2 = 0 := by omega
      simp [h, hz]
  · by_cases h : parts.length ≥ 1
    · simp [h]
    · have hz : parts.length - 1 = 0 := by omega
      simp [h, hz]

/-- The last-`k` labels of a hostname label list: still nonempty and
dot-free. -/
theorem lastKLabels_props (k : Nat) (hk : 1 ≤ k) (parts : List (List Char))
    (hne : parts ≠ []) (hd : ∀ p ∈ parts, '.' ∉ p) :
    lastKLabels k parts ≠ [] ∧ ∀ p ∈ lastKLabels k parts, '.' ∉ p := by
  constructor
  · have hlen : (lastKLabels k parts).length = parts.length - (parts.length - k) := by
      simp [lastKLabels]
    intro hcontra
    rw [hcontra] at hlen
    simp at hlen
    have : parts.length ≠ 0 := fun h => hne (List.eq_nil_of_length_eq_zero h)
    omega
  · intro p hp
    exact hd p (List.mem_of_mem_drop hp)

/-- Boolean inequality is the decision of propositional inequality. -/
theorem bne_eq_decide_ne {α : Type} [BEq α] [LawfulBEq α] [DecidableEq α] (x y : α) :
    (x != y) = decide (x ≠ y) := by
  by_cases h : x = y
  · subst h; simp
  · simp [h, bne_iff_ne]

/-- `getDomainParts` comparisons coincide with last-`k`-label
comparisons, on hostname label lists. -/
theorem getDomainParts_bne_eq (sa sb : String) (k : Nat) (hk : 1 ≤ k) (d : Int)
    (hga : getDomainParts (hostLabels sa) d = joinDot (lastKLabels k (hostLabels sa)))
    (hgb : getDomainParts (hostLabels sb) d = joinDot (lastKLabels k (hostLabels sb))) :
    (getDomainParts (hostLabels sa) d != getDomainParts (hostLabels sb) d) =
      decide (lastKLabels k (hostLabels sa) ≠ lastKLabels k (hostLabels sb)) := by
  have ha := lastKLabels_props k hk (hostLabels sa) (hostLabels_ne_nil sa) (hostLabels_dotFree sa)
  have hb := lastKLabels_props k hk (hostLabels sb) (hostLabels_ne_nil sb) (hostLabels_dotFree sb)
  rw [hga, hgb, bne_eq_decide_ne]
  exact decide_eq_decide.mpr
    (not_congr (joinDot_eq_iff _ _ ha.1 hb.1 ha.2 hb.2))

/-- C4, counterexample: at scope 0 a relative URL (`"/foo"`) is in scope
although it is not string-equal to the seed, and at scope 2 the same
relative URL is in scope although its hostname labels (the empty label)
differ from the seed's last two labels — `isExternalLink` returns before
any comparison for URLs starting with `/`. -/
theorem isExternalLink_relative_url_in_scope :
    isExternalLink "http://a.test/" "/foo" 0 = false ∧
    "/foo" ≠ "http://a.test/" ∧
    isExternalLink "http://a.test/" "/foo" 2 = false ∧
    (parseURL "/foo").map GoURL.hostname = some "" ∧
    (parseURL "http://a.test/").map GoURL.hostname = some "a.test" ∧
    lastKLabels 2 (hostLabels "") ≠ lastKLabels 2 (hostLabels "a.test") := by
  refine ⟨by decide, by decide, by decide, by decide, by decide, by decide⟩

/-- C4, amended: `isExternalLink` equals the amended domain-scope filter:
scope 4 never filters; a trimmed URL starting with `/` is never external;
unparseable URLs are never external; scope 0 compares the two parsed,
normalized serializations; scopes 1, 2, 3 compare the last 3, 2, 1
dot-separated hostname labels (all of them when a hostname has fewer);
any other scope compares all labels. -/
theorem isExternalLink_matches_amended :
    ∀ (sourceURL linkURL : String) (domainLevel : Int),
      isExternalLink sourceURL linkURL domainLevel =
        isExternalLinkAmended sourceURL linkURL domainLevel := by
  intro s l d
  by_cases h4 : d = 4
  · simp [isExternalLink, isExternalLinkAmended, h4]
  · have h4b : (d == 4) = false := by simpa using h4
    cases hpre : strHasPrefix (trimSpace l) "/" with
    | true => simp [isExternalLink, isExternalLinkAmended, h4b, hpre]
    | false =>
      cases hps : parseURL s with
      | none =>
        cases hpl : parseURL (trimSpace l) with
        | none => simp [isExternalLink, isExternalLinkAmended, h4b, hpre, hps, hpl]
        | some lp => simp [isExternalLink, isExternalLinkAmended, h4b, hpre, hps, hpl]
      | some sp =>
        cases hpl : parseURL (trimSpace l) with
        | none => simp [isExternalLink, isExternalLinkAmended, h4b, hpre, hps, hpl]
        | some lp =>
          by_cases h0 : d = 0
          · simp [isExternalLink, isExternalLinkAmended, h4b, hpre, hps, hpl, h0,
              bne_eq_decide_ne]
          · have h0b : (d == 0) = false := by simpa using h0
            simp only [isExternalLink, isExternalLinkAmended, h4b, hpre, hps, hpl,
              h0b, Bool.false_eq_true, if_false]
            by_cases h1 : d = 1
            · subst h1
              rw [getDomainParts_bne_eq sp.hostname lp.hostname 3 (by norm_num) 1
                (getDomainParts_eq_lastK _).1 (getDomainParts_eq_lastK _).1]
              simp
            · have h1b : (d == 1) = false := by simpa using h1
              by_cases h2 : d = 2
              · subst h2
                rw [getDomainParts_bne_eq sp.hostname lp.hostname 2 (by norm_num) 2
                  (getDomainParts_eq_lastK _).2.1 (getDomainParts_eq_lastK _).2.1]
                simp
              · have h2b : (d == 2) = false := by simpa using h2
                by_cases h3 : d = 3
                · subst h3
                  rw [getDomainParts_bne_eq sp.hostname lp.hostname 1 (by norm_num) 3
                    (getDomainParts_eq_lastK _).2.2 (getDomainParts_eq_lastK _).2.2]
                  simp
                · have h3b : (d == 3) = false := by simpa using h3
                  have hdefA : getDomainParts (hostLabels sp.hostname) d =
                      joinDot (hostLabels sp.hostname) := by
                    simp [getDomainParts, h1, h2, h3]
                  have hdefB : getDomainParts (hostLabels lp.hostname) d =
                      joinDot (hostLabels lp.hostname) := by
                    simp [getDomainParts, h1, h2, h3]
                  rw [hdefA, hdefB, bne_eq_decide_ne]
                  simp only [h1b, h2b, h3b, Bool.false_eq_true, if_false]
                  exact decide_eq_decide.mpr
                    (not_congr (joinDot_eq_iff _ _ (hostLabels_ne_nil _)
                      (hostLabels_ne_nil _) (hostLabels_dotFree _) (hostLabels_dotFree _)))

/-- C1: `update_sources(limit)` — the ClaimBatch operation — atomically
selects at most `limit` sources satisfying the eligibility predicate
(`disabled = false` AND (`last_updated_at` null, or older than 3 days, or
status `error` and older than 15 minutes, or status `completed` and older
than 1 week, or status in \{pending, new, null\})), flips each selected
row to `processing` in the same step (the row trigger stamping
`last_updated_at`), and two serialized callers — concurrency is
serialized by the `FOR UPDATE` row locks — return disjoint row sets, as
the first call leaves its rows in `processing` with a fresh
`last_updated_at`. -/
theorem update_sources_claimbatch :
    ∀ (limit limit2 : Nat) (now now2 : Int) (tbl : List SourceRow),
      (tbl.map (fun s => s.source_id)).Nodup →
      now ≤ now2 → now2 < now + threeDays →
      (update_sources limit now tbl).1.length ≤ limit ∧
      (∀ r ∈ (update_sources limit now tbl).1,
        ∃ s ∈ tbl, s.source_id = r.source_id ∧ eligible now s = true) ∧
      (∀ r ∈ (update_sources limit now tbl).1,
        ∃ s2 ∈ (update_sources limit now tbl).2,
          s2.source_id = r.source_id ∧ s2.status = some "processing" ∧
          s2.last_updated_at = some now) ∧
      (∀ r ∈ (update_sources limit now tbl).1,
        ∀ r2 ∈ (update_sources limit2 now2 (update_sources limit now tbl).2).1,
          r.source_id ≠ r2.source_id) := by
  intro limit limit2 now now2 tbl hnodup h12 h23
  -- notation for the pieces of the first call
  set selected := (tbl.filter (eligible now)).take limit with hselected
  have hsel_sub_filter : selected ⊆ tbl.filter (eligible now) := List.take_subset _ _
  have hsel_sub : selected ⊆ tbl := fun x hx => List.mem_of_mem_filter (hsel_sub_filter hx)
  have hsel_elig : ∀ x ∈ selected, eligible now x = true := fun x hx =>
    List.of_mem_filter (hsel_sub_filter hx)
  have hfst : (update_sources limit now tbl).1 = selected.map (fun s =>
      { source_id := s.source_id, url := s.url, restricted := s.restricted,
        flags := s.flags, config := s.config,
        last_updated_at := some now : ClaimedRow }) := rfl
  have hsnd : (update_sources limit now tbl).2 = tbl.map (fun s =>
      if (selected.map (fun s => s.source_id)).contains s.source_id then
        flipToProcessing now s else s) := rfl
  refine ⟨?_, ?_, ?_, ?_⟩
  · rw [hfst, List.length_map, hselected, List.length_take]
    exact Nat.min_le_left _ _
  · intro r hr
    rw [hfst] at hr
    obtain ⟨s, hs, hrs⟩ := List.mem_map.mp hr
    exact ⟨s, hsel_sub hs, by rw [← hrs], hsel_elig s hs⟩
  · intro r hr
    rw [hfst] at hr
    obtain ⟨s, hs, hrs⟩ := List.mem_map.mp hr
    have hid : (selected.map (fun s => s.source_id)).contains s.source_id = true :=
      List.elem_eq_true_of_mem (List.mem_map_of_mem _ hs)
    refine ⟨flipToProcessing now s, ?_, ?_, rfl, rfl⟩
    · rw [hsnd]
      exact List.mem_map.mpr ⟨s, hsel_sub hs, if_pos hid⟩
    · rw [← hrs]
      rfl
  · intro r hr r2 hr2 heq
    rw [hfst] at hr
    obtain ⟨s, hs, hrs⟩ := List.mem_map.mp hr
    -- the second call selects only rows eligible at now2 in the new table
    have hr2' : ∃ t ∈ (update_sources limit now tbl).2,
        eligible now2 t = true ∧ t.source_id = r2.source_id := by
      obtain ⟨t, ht, hrt⟩ := List.mem_map.mp hr2
      have htf : t ∈ ((update_sources limit now tbl).2).filter (eligible now2) :=
        List.take_subset _ _ ht
      refine ⟨t, List.mem_of_mem_filter htf, List.of_mem_filter htf, ?_⟩
      rw [← hrt]
      rfl
    obtain ⟨t, ht, htelig, htid⟩ := hr2'
    rw [hsnd] at ht
    obtain ⟨u, hu, hut⟩ := List.mem_map.mp ht
    -- g preserves ids
    have huid : u.source_id = t.source_id := by
      rw [← hut]
      by_cases hc : (selected.map (fun s => s.source_id)).contains u.source_id = true
      · rw [if_pos hc]
        rfl
      · rw [if_neg hc]
    -- r.source_id = s.source_id
    have hsid : s.source_id = r.source_id := by rw [← hrs]
    -- so u and s share an id, hence are equal
    have hus : u = s := by
      refine List.inj_on_of_nodup_map hnodup hu (hsel_sub hs) ?_
      show u.source_id = s.source_id
      rw [huid, htid, ← heq, ← hsid]
    -- then t is the flipped row, ineligible at now2
    have hid : (selected.map (fun s => s.source_id)).contains u.source_id = true := by
      rw [hus]
      exact List.elem_eq_true_of_mem (List.mem_map_of_mem _ hs)
    have htflip : t = flipToProcessing now u := by rw [← hut, if_pos hid]
    have hlt : ¬ (now < now2 - threeDays) := by omega
    rw [htflip] at htelig
    simp [eligible, flipToProcessing, tsLT, hlt] at htelig

/-- C1 witness: the theorem at a one-row table holding a `pending`
source: the first call claims it, an immediately following call claims
nothing that overlaps. -/
theorem update_sources_claimbatch_witness :
    (([(⟨1, "u", some "pending", some 0, none, none, none, 2, false, 0, none⟩ :
        SourceRow)]).map (fun s => s.source_id)).Nodup ∧
    (0 : Int) ≤ 0 ∧ (0 : Int) < 0 + threeDays ∧
    (update_sources 1 0
      [⟨1, "u", some "pending", some 0, none, none, none, 2, false, 0, none⟩]).1.length ≤ 1 ∧
    (∀ r ∈ (update_sources 1 0
        [⟨1, "u", some "pending", some 0, none, none, none, 2, false, 0, none⟩]).1,
      ∀ r2 ∈ (update_sources 1 0 (update_sources 1 0
          [⟨1, "u", some "pending", some 0, none, none, none, 2, false, 0, none⟩]).2).1,
        r.source_id ≠ r2.source_id) := by
  refine ⟨by decide, by norm_num, by norm_num [threeDays], ?_, ?_⟩
  · exact (update_sources_claimbatch 1 1 0 0
      [⟨1, "u", some "pending", some 0, none, none, none, 2, false, 0, none⟩]
      (by decide) (by norm_num) (by norm_num [threeDays])).1
  · exact (update_sources_claimbatch 1 1 0 0
      [⟨1, "u", some "pending", some 0, none, none, none, 2, false, 0, none⟩]
      (by decide) (by norm_num) (by norm_num [threeDays])).2.2.2

end TheCrowler
